import Mathlib

/-!
Verification of the TreeTime date-inference core (tree_time/tree_time.py).

Shallow embedding over `ℚ`: numpy float arrays become lists of rationals,
`scipy.interpolate.interp1d` objects become a pair of a grid (`x`) and the
sampled values (`y`), and the external numpy transcendental functions
(`np.exp`, `np.log`) and the external `scipy.optimize.minimize_scalar`
bounded optimizer are passed in as parameters, since they are library
collaborators rather than code of this repository.
-/

/-- TreeTime.MIN_T. -/
def MIN_T : ℚ := -100000

/-- TreeTime.MAX_T. -/
def MAX_T : ℚ := 100000

/-- TreeTime.MIN_LOG. -/
def MIN_LOG : ℚ := -1000

/-- A scipy interp1d object as stored by the code: the sample grid `x`
and the sampled values `y` (kind is linear throughout the source). -/
structure Interp where
  x : List ℚ
  y : List ℚ
deriving DecidableEq, Repr

/-- Piecewise-linear evaluation of interp1d samples: walk the consecutive
sample pairs and interpolate on the first segment whose right end is at or
beyond the query point (scipy interp1d, kind equal to linear). -/
def interp_pairs : List ℚ → List ℚ → ℚ → ℚ
  | x1 :: x2 :: xs, y1 :: y2 :: ys, t =>
    if t ≤ x2 then y1 + (y2 - y1) * (t - x1) / (x2 - x1)
    else interp_pairs (x2 :: xs) (y2 :: ys) t
  | _, _, _ => 0

/-- Evaluation of an interp1d object at a point. -/
def interp_eval (d : Interp) (t : ℚ) : ℚ := interp_pairs d.x d.y t

/-- First index of the minimum together with the minimum, as np.argmin
computes it (ties resolved to the earliest index). -/
def argminPair : List ℚ → ℕ × ℚ
  | [] => (0, 0)
  | [v] => (0, v)
  | v :: vs =>
    let r := argminPair vs
    if v ≤ r.2 then (0, v) else (r.1 + 1, r.2)

/-- TreeTime._min_interp: interp_object.x[interp_object(interp_object.x).argmin()].
Evaluating a linear interpolant at its own sample points returns the stored
sample values, so the argmin is taken over `y` directly. -/
def min_interp (d : Interp) : ℚ := d.x.getD (argminPair d.y).1 0

/-- np.min over a list of rationals (the source only applies it to
non-empty arrays). -/
def listMinQ : List ℚ → ℚ
  | [] => 0
  | v :: vs => vs.foldl min v

/-- np.max over a list of rationals (the source only applies it to
non-empty arrays). -/
def listMaxQ : List ℚ → ℚ
  | [] => 0
  | v :: vs => vs.foldl max v

/-- np.min over a list of naturals. -/
def listMinN : List ℕ → ℕ
  | [] => 0
  | v :: vs => vs.foldl min v

/-- np.linspace a b n: n evenly spaced points from a to b inclusive. -/
def linspace (a b : ℚ) (n : ℕ) : List ℚ :=
  (List.range n).map (fun i : ℕ => a + (b - a) * (i : ℚ) / ((n : ℚ) - 1))

/-- TreeTime._make_node_grid(opt, grid_size, variance), with the instance
field max_node_abs_t passed explicitly as maxT.  A quadratic grid, fine
around opt and sparse at the edges, wrapped in the global sentinels
MIN_T and MAX_T. -/
def make_node_grid (maxT opt : ℚ) (gridSize : ℕ) (variance : ℚ) : List ℚ :=
  let scale := maxT * variance
  let gridRoot := (linspace 1 (1/100000) (gridSize / 2 - 1)).map
    (fun t => opt - scale * t ^ 2)
  let gridLeaves := (linspace 0 1 (gridSize / 2)).map
    (fun t => opt + scale * t ^ 2)
  [MIN_T] ++ gridRoot ++ gridLeaves ++ [MAX_T]

/-- np.unique: sort ascending and drop repeated points. -/
def np_unique (l : List ℚ) : List ℚ := (l.insertionSort (· ≤ ·)).dedup

/-- The grid built by TreeTime._multiply_dists: if some input grid is very
small (near-delta constraint) the union of the input grids, otherwise a
fresh adaptive grid around the mean of the input optima.  The filter of
None optima in the source is a no-op since _min_interp always returns a
grid point. -/
def combined_grid (maxT : ℚ) (interps : List Interp) (gridSize : ℕ) : List ℚ :=
  if listMinN (interps.map (fun k => k.x.length)) < 10 then
    np_unique (interps.map (fun k => k.x)).flatten
  else
    let opts := interps.map min_interp
    let scale := 2 * max |listMaxQ opts - listMinQ opts| (1/100) / maxT
    make_node_grid maxT (opts.sum / (opts.length : ℚ)) gridSize scale

/-- The pointwise sum np.sum([k(grid) for k in interps], axis=0). -/
def sum_vals (interps : List Interp) (grid : List ℚ) : List ℚ :=
  grid.map (fun t => (interps.map (fun k => interp_eval k t)).sum)

/-- TreeTime._multiply_dists: sum the input neg-log curves on a combined
grid, subtract the minimum into the prefactor, reapply the two-tier
boundary sentinels, and return the new interpolation object together
with the summed prefactor. -/
def multiply_dists (maxT : ℚ) (interps : List Interp) (prefactors : List ℚ)
    (gridSize : ℕ) : Interp × ℚ :=
  let ml_t_prefactor := prefactors.sum
  let grid := combined_grid maxT interps gridSize
  let node_prob := sum_vals interps grid
  let pre := listMinQ node_prob
  let node_prob2 := node_prob.map (fun v => v - pre)
  let n := node_prob2.length
  let node_prob3 :=
    (((node_prob2.set 0 (-1 * MIN_LOG)).set (n - 1) (-1 * MIN_LOG)).set
        1 (-1 * MIN_LOG / 2)).set (n - 2) (-1 * MIN_LOG / 2)
  (⟨grid, node_prob3⟩, ml_t_prefactor + pre)

/-- Result of the external scipy.optimize.minimize_scalar bounded call:
the success flag and the located position x. -/
structure OptResult where
  success : Bool
  x : ℚ
deriving DecidableEq, Repr

/-- The clipping grid2D[grid2D < MIN_T] = MIN_T; grid2D[grid2D > MAX_T] = MAX_T. -/
def clipT (t : ℚ) : ℚ :=
  if t < MIN_T then MIN_T else if t > MAX_T then MAX_T else t

/-- Assign a constant to one column of a 2D array, as logprob2D[:, (j,)] = v. -/
def setCol (m : List (List ℚ)) (j : ℕ) (v : ℚ) : List (List ℚ) :=
  m.map (fun row => row.set j v)

/-- Assign a constant to one row of a 2D array, as logprob2D[(i,), :] = v. -/
def setRow (m : List (List ℚ)) (i : ℕ) (v : ℚ) : List (List ℚ) :=
  m.mapIdx (fun k row => if k = i then row.map (fun _ => v) else row)

/-- TreeTime._convolve.  expF and logF stand for the external np.exp and
np.log; optRes is the result of the external bounded minimize_scalar call
on src_branch_neglogprob over [0, 2 * max_node_abs_t].  Rows of grid2D are
indexed by the source grid, columns by the target grid, matching
source_grid[:, None] - target_grid. -/
def convolve (expF logF : ℚ → ℚ) (maxT : ℚ)
    (src_neglogprob src_branch_neglogprob : Interp)
    (optRes : OptResult) (inverse_time : Bool) (gridSize : ℕ) : Interp :=
  let opt_source_pos := min_interp src_neglogprob
  let opt_branch_len := if optRes.success = true then optRes.x else 0
  let opt_target_pos := opt_source_pos - opt_branch_len
  let source_grid := src_neglogprob.x
  let target_grid := make_node_grid maxT opt_target_pos gridSize (1/4)
  let grid2D := source_grid.map (fun s => target_grid.map (fun t =>
      clipT (if inverse_time then s - t else -(s - t))))
  let logprob2D := grid2D.map (fun row => row.map (interp_eval src_branch_neglogprob))
  let nt := target_grid.length
  let ns := source_grid.length
  let l1 := setCol (setCol logprob2D 1 (-1 * MIN_LOG / 2)) (nt - 2) (-1 * MIN_LOG / 2)
  let l2 := setRow (setRow l1 1 (-1 * MIN_LOG / 2)) (ns - 2) (-1 * MIN_LOG / 2)
  let l3 := setCol (setCol l2 0 (-1 * MIN_LOG)) (nt - 1) (-1 * MIN_LOG)
  let l4 := setRow (setRow l3 0 (-1 * MIN_LOG)) (ns - 1) (-1 * MIN_LOG)
  let prob2D := l4.map (fun row => row.map (fun v => expF (-1 * v)))
  let dx := List.zipWith (fun a b => b - a) source_grid source_grid.tail
  let prob_source := source_grid.map (fun s => expF (-1 * interp_eval src_neglogprob s))
  let conv := (List.range nt).map (fun j =>
    let dj := (prob2D.zip prob_source).map (fun p => p.1.getD j 0 * p.2)
    (((dj.zip dj.tail).zip dx).map (fun q => 1/2 * (q.1.2 + q.1.1) * q.2)).sum)
  let p_logprob := conv.map (fun c => logF (c + 1/10^100))
  let np := p_logprob.length
  let p2 := (((p_logprob.set 0 MIN_LOG).set (np - 1) MIN_LOG).set
      1 (MIN_LOG / 2)).set (np - 2) (MIN_LOG / 2)
  ⟨target_grid, p2.map (fun v => -1 * v)⟩

/-- TreeTime._parent_neg_log_prob, lines 489 to 512: locate the node
optimum, substitute 0.0 for the branch length when the bounded optimizer
reports failure, and build the parent grid around the estimated parent
optimum.  The rest of that function repeats the integration steps already
embedded in convolve. -/
def parent_neg_log_prob_grid (maxT : ℚ) (node_nlp : Interp) (optRes : OptResult)
    (gridSize : ℕ) : List ℚ :=
  let opt_node_pos := min_interp node_nlp
  let opt_branch_len := if optRes.success = true then optRes.x else 0
  let opt_parent_pos := opt_node_pos - opt_branch_len
  make_node_grid maxT opt_parent_pos gridSize (1/4)

/-- DateConversion: the fitted slope and intersect (the remaining
regression statistics are never read by the core). -/
structure DateConversion where
  slope : ℚ
  intersect : ℚ
deriving DecidableEq, Repr

/-- DateConversion.get_date, returning the computed year together with the
flag telling whether the negative-date warning was printed. -/
def get_date (dc : DateConversion) (abs_t : ℚ) : ℚ × Bool :=
  let year := (dc.intersect - abs_t) / dc.slope
  if year < 0 then (|year|, true) else (year, false)

/-- Modelled from the wording of claim C3: the inverse of the fitted
relation, (t - intercept)/slope, warning and taking the absolute value
when that value is negative.  For comparison against get_date. -/
def get_date_claimed (dc : DateConversion) (abs_t : ℚ) : ℚ × Bool :=
  let year := (abs_t - dc.intersect) / dc.slope
  if year < 0 then (|year|, true) else (year, false)

/-- Python exceptions that the embedded fragments can raise. -/
inductive PyErr
  | indexError
  | attributeError
deriving DecidableEq, Repr

/-- A tree node as seen by DateConversion.from_tree. -/
structure DNode where
  raw_date : Option ℚ
  dist2root : ℚ
deriving DecidableEq, Repr

/-- The (raw_date, dist2root) pairs collected by DateConversion.from_tree. -/
def from_tree_dates (nodes : List DNode) : List (ℚ × ℚ) :=
  nodes.filterMap (fun n => n.raw_date.map (fun d => (d, n.dist2root)))

/-- scipy.stats.linregress on a list of points, reduced to the slope and
intercept the core reads; none models the NaN result scipy produces when
the x variance vanishes (a single point: numpy evaluates 0/0 to nan with
a warning, without raising). -/
def linregress (pts : List (ℚ × ℚ)) : Option (ℚ × ℚ) :=
  let n : ℚ := pts.length
  let xm := (pts.map Prod.fst).sum / n
  let ym := (pts.map Prod.snd).sum / n
  let ssx := (pts.map (fun p => (p.1 - xm) ^ 2)).sum
  let ssxy := (pts.map (fun p => (p.1 - xm) * (p.2 - ym))).sum
  if ssx = 0 then none else some (ssxy / ssx, ym - ssxy / ssx * xm)

/-- DateConversion.from_tree: collect the dated pairs and regress.  With
no dated node, dates is an empty numpy array of shape (0,), and the column
access dates[:, 0] raises IndexError before linregress is reached. -/
def from_tree (nodes : List DNode) : Except PyErr (Option (ℚ × ℚ)) :=
  let dates := from_tree_dates nodes
  if dates.isEmpty then Except.error PyErr.indexError
  else Except.ok (linregress dates)

/-- The grid of TreeTime._make_branch_len_interpolator.  For an effectively
zero branch length, a quadratic grid from 0 scaled by a fraction of the tree
depth; otherwise the concatenation of a left grid rising to the current
branch length and a right grid extending three sigmas beyond it; both are
wrapped in the sentinels [MIN_T, -1e-30] on the left and [MAX_T] on the
right.  average_branch_len is the property computed from the tree. -/
def branch_len_grid (maxT average_branch_len branch_length : ℚ) (n : ℕ) : List ℚ :=
  if branch_length < 1/100000 then
    let sigma := max (1/100) (1/10 * maxT)
    [MIN_T, -(1/10^30)] ++
      (linspace 0 1 n).map (fun t => sigma * t ^ 2) ++ [MAX_T]
  else
    let sigma := max average_branch_len branch_length
    let grid_left := (linspace 1 0 (n / 2)).map
      (fun t => branch_length * (1 - t ^ 2))
    let grid_right := (linspace 0 1 (n / 2)).map
      (fun t => branch_length + 3 * sigma * t ^ 2)
    [MIN_T, -(1/10^30)] ++ grid_left ++ grid_right ++ [MAX_T]

/-- The values of TreeTime._make_branch_len_interpolator on its grid:
gtr.prob_t in log form (an external collaborator, passed as gtr_log_prob)
at the interior points grid[2:-1], zeros at the boundary slots, then the
two-tier sentinel overwrite and the sign flip to neg-log form. -/
def branch_len_vals (gtr_log_prob : ℚ → ℚ) (grid : List ℚ) : List ℚ :=
  let logprob := [0, 0] ++ ((grid.drop 2).dropLast).map gtr_log_prob ++ [0]
  let n := logprob.length
  let lp := (((logprob.set 0 MIN_LOG).set (n - 1) MIN_LOG).set
      1 (MIN_LOG / 2)).set (n - 2) (MIN_LOG / 2)
  lp.map (fun v => v * (-1))

/-- TreeTime._make_branch_len_interpolator for a node with a parent. -/
def make_branch_len_interpolator (gtr_log_prob : ℚ → ℚ)
    (maxT average_branch_len branch_length : ℚ) (n : ℕ) : Interp :=
  let grid := branch_len_grid maxT average_branch_len branch_length n
  ⟨grid, branch_len_vals gtr_log_prob grid⟩

/-- The near-delta constraint distribution TreeTime._ml_t_init attaches to
a node with raw_date set, at absolute time T = raw_date * slope + intersect.
log1e10 stands for the external np.log(1e10). -/
def init_constraint_dist (log1e10 T : ℚ) : Interp :=
  ⟨[MIN_T] ++ [T * (1 - 1/10^10), T * 1, T * (1 + 1/10^10)] ++ [MAX_T],
   ([MIN_LOG, MIN_LOG / 2, log1e10, MIN_LOG / 2, MIN_LOG]).map (fun v => -1 * v)⟩

/-- The state of a dynamically assigned python attribute: either never
assigned (reading it raises AttributeError) or holding a value. -/
inductive PyAttr
  | unset
  | val (v : Option ℤ)
deriving DecidableEq, Repr

/-- A tree node as seen by TreeTime._set_dates_to_all_nodes: its name, 
whether it is a terminal, and its raw_date attribute state.  Dates are
days as integers. -/
structure CNode where
  name : ℕ
  terminal : Bool
  raw_date : PyAttr
deriving DecidableEq, Repr

/-- The body of the loop of TreeTime._set_dates_to_all_nodes for one node:
a node in the dictionary with a date gets days-before-present, unless that
is negative, in which case the warning is printed and the loop continues
without touching the attribute; a node without a usable entry gets None. -/
def set_date_node (now : ℤ) (dates_dic : List (ℕ × Option ℤ)) (nd : CNode) : CNode :=
  match dates_dic.lookup nd.name with
  | some (some d) =>
    let days_before_present := now - d
    if days_before_present < 0 then nd
    else { nd with raw_date := PyAttr.val (some days_before_present) }
  | _ => { nd with raw_date := PyAttr.val none }

/-- The attribute reads performed by TreeTime.reroot_to_oldest: sorting the
terminals by the key node.raw_date evaluates the key on every terminal, and
an unset attribute raises AttributeError.  The rerooting itself is done by
the external Bio.Phylo root_with_outgroup. -/
def reroot_sort_keys (nodes : List CNode) : Except PyErr (List (Option ℤ)) :=
  (nodes.filter (fun n => n.terminal)).mapM (fun n =>
    match n.raw_date with
    | PyAttr.unset => Except.error PyErr.attributeError
    | PyAttr.val v => Except.ok v)

/-- TreeTime._set_dates_to_all_nodes: assign dates to all nodes, then
reroot to the oldest terminal (which sorts the terminals by raw_date). -/
def set_dates_to_all_nodes (now : ℤ) (dates_dic : List (ℕ × Option ℤ))
    (nodes : List CNode) : Except PyErr (List CNode) :=
  let nodes2 := nodes.map (set_date_node now dates_dic)
  match reroot_sort_keys nodes2 with
  | Except.error e => Except.error e
  | Except.ok _ => Except.ok nodes2

/-- A tree node as seen by TreeTime._set_final_date: the parent reference
(as the index of the parent in the preorder arena, none for the root), the
neg-log-prob distribution it carries when the down-pass reaches it, and the
fields the finalization writes. -/
structure PNode where
  up : Option ℕ
  neg_log_prob : Interp
  abs_t : ℚ := 0
  branch_length : ℚ := 0
  dist2root : ℚ := 0
  date : ℚ := 0
deriving DecidableEq, Repr

/-- TreeTime._set_final_date on one node, with the already-finalized parent
passed explicitly (none for the root). -/
def set_final_date (dc : DateConversion) (parent : Option PNode) (nd : PNode) : PNode :=
  let abs_t := min_interp nd.neg_log_prob
  match parent with
  | some p =>
    let branch_length := abs_t - p.abs_t
    { nd with abs_t := abs_t, branch_length := branch_length,
              dist2root := p.dist2root + branch_length,
              date := (abs_t - dc.intersect) / dc.slope }
  | none =>
    { nd with abs_t := abs_t, branch_length := 1, dist2root := 0,
              date := (abs_t - dc.intersect) / dc.slope }

/-- The preorder finalization loop: each node is finalized after its parent
and reads the finalized parent fields. -/
def down_pass (dc : DateConversion) (acc : List PNode) : List PNode → List PNode
  | [] => acc
  | nd :: rest =>
    down_pass dc (acc ++ [set_final_date dc (nd.up.bind (fun p => acc[p]?)) nd]) rest

/-- TreeTime._ml_t_root_leaves_tmp: apply _set_final_date to every node in
preorder; the nodes are listed in preorder as an arena, node.up referring
to the parent by its earlier preorder index. -/
def ml_t_root_leaves_tmp (dc : DateConversion) (nodes : List PNode) : List PNode :=
  down_pass dc [] nodes

theorem linspace_length (a b : ℚ) (n : ℕ) : (linspace a b n).length = n := by
  rw [linspace, List.length_map, List.length_range]

theorem linspace_getElem (a b : ℚ) (n i : ℕ) (h : i < (linspace a b n).length) :
    (linspace a b n)[i] = a + (b - a) * i / ((n : ℚ) - 1) := by
  have hi : i < n := by rwa [linspace_length] at h
  simp only [linspace, List.getElem_map, List.getElem_range]

theorem linspace_mem_between {a b u : ℚ} {n : ℕ} (h : u ∈ linspace a b n) :
    min a b ≤ u ∧ u ≤ max a b := by
  rw [linspace, List.mem_map] at h
  obtain ⟨i, hi, rfl⟩ := h
  rw [List.mem_range] at hi
  rcases Nat.lt_or_ge n 2 with hn | hn
  · have hi0 : i = 0 := by omega
    subst hi0
    simp only [Nat.cast_zero, mul_zero, zero_div, add_zero]
    exact ⟨min_le_left a b, le_max_left a b⟩
  · have hD : (0:ℚ) < (n : ℚ) - 1 := by
      have : (2:ℚ) ≤ (n:ℚ) := by exact_mod_cast hn
      linarith
    have h0 : (0:ℚ) ≤ (i:ℚ) / ((n:ℚ) - 1) := div_nonneg (Nat.cast_nonneg i) hD.le
    have h1 : (i:ℚ) / ((n:ℚ) - 1) ≤ 1 := by
      rw [div_le_one hD]
      have : (i:ℚ) + 1 ≤ (n:ℚ) := by exact_mod_cast hi
      linarith
    rw [mul_div_assoc]
    set r := (i:ℚ) / ((n:ℚ) - 1)
    rcases le_total a b with hab | hab
    · rw [min_eq_left hab, max_eq_right hab]
      constructor <;> nlinarith
    · rw [min_eq_right hab, max_eq_left hab]
      constructor <;> nlinarith

theorem pairwise_lt_grid_root (opt s : ℚ) (hs : 0 < s) (m : ℕ) :
    ((linspace 1 (1/100000) m).map (fun t => opt - s * t ^ 2)).Pairwise (· < ·) := by
  rw [List.pairwise_iff_getElem]
  intro i j hi hj hij
  rw [List.length_map, linspace_length] at hi hj
  rw [List.getElem_map, List.getElem_map, linspace_getElem, linspace_getElem]
  have hD : (0:ℚ) < (m:ℚ) - 1 := by
    have h2 : 2 ≤ m := by omega
    have : (2:ℚ) ≤ (m:ℚ) := by exact_mod_cast h2
    linarith
  have hiq : (i:ℚ) < (j:ℚ) := by exact_mod_cast hij
  have hjq : (j:ℚ) ≤ (m:ℚ) - 1 := by
    have : (j:ℚ) + 1 ≤ (m:ℚ) := by exact_mod_cast hj
    linarith
  have hri : (0:ℚ) ≤ (i:ℚ) / ((m:ℚ) - 1) := div_nonneg (Nat.cast_nonneg i) hD.le
  have hrij : (i:ℚ) / ((m:ℚ) - 1) < (j:ℚ) / ((m:ℚ) - 1) := by
    rw [div_lt_div_iff₀ hD hD]
    nlinarith
  have hrj : (j:ℚ) / ((m:ℚ) - 1) ≤ 1 := by
    rw [div_le_one hD]
    exact hjq
  simp only [mul_div_assoc]
  set ri := (i:ℚ) / ((m:ℚ) - 1)
  set rj := (j:ℚ) / ((m:ℚ) - 1)
  have hj_lt_i : 1 + (1/100000 - 1) * rj < 1 + (1/100000 - 1) * ri := by nlinarith
  have hj_pos : (0:ℚ) ≤ 1 + (1/100000 - 1) * rj := by nlinarith
  have hpow : (1 + (1/100000 - 1) * rj) ^ 2 < (1 + (1/100000 - 1) * ri) ^ 2 :=
    pow_lt_pow_left₀ hj_lt_i hj_pos two_ne_zero
  have := mul_lt_mul_of_pos_left hpow hs
  linarith

theorem pairwise_lt_grid_leaves (opt s : ℚ) (hs : 0 < s) (m : ℕ) :
    ((linspace 0 1 m).map (fun t => opt + s * t ^ 2)).Pairwise (· < ·) := by
  rw [List.pairwise_iff_getElem]
  intro i j hi hj hij
  rw [List.length_map, linspace_length] at hi hj
  rw [List.getElem_map, List.getElem_map, linspace_getElem, linspace_getElem]
  have hD : (0:ℚ) < (m:ℚ) - 1 := by
    have h2 : 2 ≤ m := by omega
    have : (2:ℚ) ≤ (m:ℚ) := by exact_mod_cast h2
    linarith
  have hiq : (i:ℚ) < (j:ℚ) := by exact_mod_cast hij
  have hri : (0:ℚ) ≤ (i:ℚ) / ((m:ℚ) - 1) := div_nonneg (Nat.cast_nonneg i) hD.le
  have hrij : (i:ℚ) / ((m:ℚ) - 1) < (j:ℚ) / ((m:ℚ) - 1) := by
    rw [div_lt_div_iff₀ hD hD]
    nlinarith
  simp only [mul_div_assoc]
  set ri := (i:ℚ) / ((m:ℚ) - 1)
  set rj := (j:ℚ) / ((m:ℚ) - 1)
  have hji : 0 + 1 * ri < 0 + 1 * rj := by nlinarith
  have hnn : (0:ℚ) ≤ 0 + 1 * ri := by nlinarith
  have hpow : (0 + 1 * ri) ^ 2 < (0 + 1 * rj) ^ 2 :=
    pow_lt_pow_left₀ hji hnn two_ne_zero
  have := mul_lt_mul_of_pos_left hpow hs
  linarith

theorem pairwise_le_grid_left (bl : ℚ) (hbl : 0 ≤ bl) (m : ℕ) :
    ((linspace 1 0 m).map (fun t => bl * (1 - t ^ 2))).Pairwise (· ≤ ·) := by
  rw [List.pairwise_iff_getElem]
  intro i j hi hj hij
  rw [List.length_map, linspace_length] at hi hj
  rw [List.getElem_map, List.getElem_map, linspace_getElem, linspace_getElem]
  have hD : (0:ℚ) < (m:ℚ) - 1 := by
    have h2 : 2 ≤ m := by omega
    have : (2:ℚ) ≤ (m:ℚ) := by exact_mod_cast h2
    linarith
  have hiq : (i:ℚ) < (j:ℚ) := by exact_mod_cast hij
  have hjq : (j:ℚ) ≤ (m:ℚ) - 1 := by
    have : (j:ℚ) + 1 ≤ (m:ℚ) := by exact_mod_cast hj
    linarith
  have hri : (0:ℚ) ≤ (i:ℚ) / ((m:ℚ) - 1) := div_nonneg (Nat.cast_nonneg i) hD.le
  have hrij : (i:ℚ) / ((m:ℚ) - 1) < (j:ℚ) / ((m:ℚ) - 1) := by
    rw [div_lt_div_iff₀ hD hD]
    nlinarith
  have hrj : (j:ℚ) / ((m:ℚ) - 1) ≤ 1 := by
    rw [div_le_one hD]
    exact hjq
  simp only [mul_div_assoc]
  set ri := (i:ℚ) / ((m:ℚ) - 1)
  set rj := (j:ℚ) / ((m:ℚ) - 1)
  have hj_le_i : 1 + (0 - 1) * rj ≤ 1 + (0 - 1) * ri := by nlinarith
  have hj_nn : (0:ℚ) ≤ 1 + (0 - 1) * rj := by nlinarith
  have hpow : (1 + (0 - 1) * rj) ^ 2 ≤ (1 + (0 - 1) * ri) ^ 2 :=
    pow_le_pow_left₀ hj_nn hj_le_i 2
  have h1 : 1 - (1 + (0 - 1) * ri) ^ 2 ≤ 1 - (1 + (0 - 1) * rj) ^ 2 := by linarith
  exact mul_le_mul_of_nonneg_left h1 hbl

theorem pairwise_le_grid_right (bl s : ℚ) (hs : 0 ≤ s) (m : ℕ) :
    ((linspace 0 1 m).map (fun t => bl + 3 * s * t ^ 2)).Pairwise (· ≤ ·) := by
  rw [List.pairwise_iff_getElem]
  intro i j hi hj hij
  rw [List.length_map, linspace_length] at hi hj
  rw [List.getElem_map, List.getElem_map, linspace_getElem, linspace_getElem]
  have hD : (0:ℚ) < (m:ℚ) - 1 := by
    have h2 : 2 ≤ m := by omega
    have : (2:ℚ) ≤ (m:ℚ) := by exact_mod_cast h2
    linarith
  have hiq : (i:ℚ) < (j:ℚ) := by exact_mod_cast hij
  have hri : (0:ℚ) ≤ (i:ℚ) / ((m:ℚ) - 1) := div_nonneg (Nat.cast_nonneg i) hD.le
  have hrij : (i:ℚ) / ((m:ℚ) - 1) < (j:ℚ) / ((m:ℚ) - 1) := by
    rw [div_lt_div_iff₀ hD hD]
    nlinarith
  simp only [mul_div_assoc]
  set ri := (i:ℚ) / ((m:ℚ) - 1)
  set rj := (j:ℚ) / ((m:ℚ) - 1)
  have hji : 0 + 1 * ri ≤ 0 + 1 * rj := by nlinarith
  have hnn : (0:ℚ) ≤ 0 + 1 * ri := by nlinarith
  have hpow : (0 + 1 * ri) ^ 2 ≤ (0 + 1 * rj) ^ 2 :=
    pow_le_pow_left₀ hnn hji 2
  have h3 : (0:ℚ) ≤ 3 * s := by linarith
  have := mul_le_mul_of_nonneg_left hpow h3
  linarith

theorem make_node_grid_root_bounds (opt s : ℚ) (hs : 0 < s) (m : ℕ) :
    ∀ u ∈ (linspace 1 (1/100000) m).map (fun t => opt - s * t ^ 2),
      opt - s ≤ u ∧ u < opt := by
  intro u hu
  rw [List.mem_map] at hu
  obtain ⟨t, ht, rfl⟩ := hu
  obtain ⟨h1, h2⟩ := linspace_mem_between ht
  rw [show min (1:ℚ) (1/100000) = 1/100000 by norm_num] at h1
  rw [show max (1:ℚ) (1/100000) = 1 by norm_num] at h2
  have h1t : (0:ℚ) < t := by linarith
  have ht2 : t ^ 2 ≤ 1 := by nlinarith
  have ht2p : 0 < t ^ 2 := pow_pos h1t 2
  have hst : s * t ^ 2 ≤ s * 1 := mul_le_mul_of_nonneg_left ht2 hs.le
  have hstp : 0 < s * t ^ 2 := mul_pos hs ht2p
  constructor <;> linarith

theorem make_node_grid_leaves_bounds (opt s : ℚ) (hs : 0 < s) (m : ℕ) :
    ∀ u ∈ (linspace 0 1 m).map (fun t => opt + s * t ^ 2),
      opt ≤ u ∧ u ≤ opt + s := by
  intro u hu
  rw [List.mem_map] at hu
  obtain ⟨t, ht, rfl⟩ := hu
  obtain ⟨h1, h2⟩ := linspace_mem_between ht
  rw [show min (0:ℚ) 1 = 0 by norm_num] at h1
  rw [show max (0:ℚ) 1 = 1 by norm_num] at h2
  have ht2 : t ^ 2 ≤ 1 := by nlinarith
  have ht2n : 0 ≤ t ^ 2 := sq_nonneg t
  have hst : s * t ^ 2 ≤ s * 1 := mul_le_mul_of_nonneg_left ht2 hs.le
  have hstn : 0 ≤ s * t ^ 2 := mul_nonneg hs.le ht2n
  constructor <;> linarith

/-- C5 amended: for any center and positive scale such that the quadratic
part of the grid stays strictly inside (MIN_T, MAX_T), the grid is strictly
increasing; its first and last elements equal MIN_T and MAX_T always. -/
theorem make_node_grid_amended (maxT opt variance : ℚ) (g : ℕ)
    (hs : 0 < maxT * variance)
    (hlow : MIN_T < opt - maxT * variance)
    (hhigh : opt + maxT * variance < MAX_T) :
    (make_node_grid maxT opt g variance).Pairwise (· < ·) ∧
    (make_node_grid maxT opt g variance).head? = some MIN_T ∧
    (make_node_grid maxT opt g variance).getLast? = some MAX_T := by
  have hroot := make_node_grid_root_bounds opt (maxT * variance) hs (g / 2 - 1)
  have hleaves := make_node_grid_leaves_bounds opt (maxT * variance) hs (g / 2)
  have hMM : MIN_T < MAX_T := by norm_num [MIN_T, MAX_T]
  have key : make_node_grid maxT opt g variance =
      [MIN_T] ++ (linspace 1 (1/100000) (g / 2 - 1)).map
        (fun t => opt - maxT * variance * t ^ 2) ++
        (linspace 0 1 (g / 2)).map (fun t => opt + maxT * variance * t ^ 2) ++
        [MAX_T] := by
    unfold make_node_grid
    simp only []
  refine ⟨?_, ?_, ?_⟩
  · rw [key, List.pairwise_append]
    refine ⟨?_, List.pairwise_singleton _ _, ?_⟩
    · rw [List.pairwise_append]
      refine ⟨?_, pairwise_lt_grid_leaves opt (maxT * variance) hs _, ?_⟩
      · rw [List.pairwise_append]
        refine ⟨List.pairwise_singleton _ _,
          pairwise_lt_grid_root opt (maxT * variance) hs _, ?_⟩
        intro u hu v hv
        rw [List.mem_singleton] at hu
        subst hu
        obtain ⟨h1, h2⟩ := hroot v hv
        linarith
      · intro u hu v hv
        obtain ⟨h1, h2⟩ := hleaves v hv
        rw [List.mem_append] at hu
        rcases hu with hu | hu
        · rw [List.mem_singleton] at hu
          subst hu
          linarith
        · obtain ⟨h3, h4⟩ := hroot u hu
          linarith
    · intro u hu v hv
      rw [List.mem_singleton] at hv
      subst hv
      rw [List.mem_append] at hu
      rcases hu with hu | hu
      · rw [List.mem_append] at hu
        rcases hu with hu | hu
        · rw [List.mem_singleton] at hu
          subst hu
          exact hMM
        · obtain ⟨h1, h2⟩ := hroot u hu
          linarith
      · obtain ⟨h1, h2⟩ := hleaves u hu
        linarith
  · rw [key]
    rfl
  · rw [key]
    exact List.getLast?_concat _

/-- C5 counterexample input: with max_node_abs_t = 1, variance = 1/4 (a
positive scale) and a center far below MIN_T, the grid is not strictly
increasing because the first interior point lies below the MIN_T sentinel. -/
theorem make_node_grid_not_strictly_increasing :
    ¬ (make_node_grid 1 (-200000) 100 (1/4)).Pairwise (· < ·) := by
  intro h
  have key : make_node_grid 1 (-200000) 100 (1/4) =
      [MIN_T] ++ (linspace 1 (1/100000) 49).map
        (fun t => (-200000 : ℚ) - 1 * (1/4) * t ^ 2) ++
        (linspace 0 1 50).map (fun t => (-200000 : ℚ) + 1 * (1/4) * t ^ 2) ++
        [MAX_T] := by
    unfold make_node_grid
    norm_num
  rw [key] at h
  have h1mem : (1:ℚ) ∈ linspace 1 (1/100000) 49 := by
    rw [linspace, List.mem_map]
    refine ⟨0, ?_, by norm_num⟩
    rw [List.mem_range]
    norm_num
  have hmem : ((-200000 : ℚ) - 1 * (1/4) * 1 ^ 2) ∈
      (linspace 1 (1/100000) 49).map (fun t => (-200000 : ℚ) - 1 * (1/4) * t ^ 2) := by
    rw [List.mem_map]
    exact ⟨1, h1mem, rfl⟩
  rw [List.pairwise_append] at h
  obtain ⟨h1, -, -⟩ := h
  rw [List.pairwise_append] at h1
  obtain ⟨h2, -, -⟩ := h1
  rw [List.pairwise_append] at h2
  obtain ⟨-, -, hcross⟩ := h2
  have hlt := hcross MIN_T (by simp) _ hmem
  norm_num [MIN_T] at hlt

/-- C5 witness: the amended statement instantiated at max_node_abs_t = 1,
center 0, variance 1/4, grid size 100. -/
theorem make_node_grid_amended_witness :
    ((0:ℚ) < 1 * (1/4) ∧ MIN_T < 0 - 1 * (1/4) ∧ 0 + 1 * (1/4) < MAX_T) ∧
    ((make_node_grid 1 0 100 (1/4)).Pairwise (· < ·) ∧
     (make_node_grid 1 0 100 (1/4)).head? = some MIN_T ∧
     (make_node_grid 1 0 100 (1/4)).getLast? = some MAX_T) :=
  ⟨⟨by norm_num, by norm_num [MIN_T], by norm_num [MAX_T]⟩,
   make_node_grid_amended 1 0 (1/4) 100 (by norm_num)
     (by norm_num [MIN_T]) (by norm_num [MAX_T])⟩

/-- C3 counterexample: with slope 1, intersect 0 and abs_t = 5, the claimed
value (t - intercept)/slope = 5 is nonnegative, so the claim predicts the
pair (5, no warning); the code computes (intercept - t)/slope = -5, prints
the warning and returns the absolute value, giving (5, warning). -/
theorem get_date_counterexample :
    get_date ⟨1, 0⟩ 5 = (5, true) ∧ get_date_claimed ⟨1, 0⟩ 5 = (5, false) := by
  constructor <;> norm_num [get_date, get_date_claimed]

/-- C3 amended: get_date computes (intersect - t)/slope, the negation of
the inverse of the fit; it warns exactly when that value is negative, and
in every case returns its absolute value |intersect - t| / |slope|. -/
theorem get_date_amended (dc : DateConversion) (t : ℚ) (_h : dc.slope ≠ 0) :
    get_date dc t =
      (|dc.intersect - t| / |dc.slope|, decide ((dc.intersect - t) / dc.slope < 0)) := by
  unfold get_date
  simp only []
  split_ifs with hy
  · rw [abs_div] at *
    simp [hy]
  · rw [← abs_div, abs_of_nonneg (not_lt.mp hy)]
    simp [hy]

/-- C3 witness: the amended statement at slope 1, intersect 7, abs_t 12. -/
theorem get_date_amended_witness :
    ((DateConversion.mk 1 7).slope ≠ 0) ∧ get_date ⟨1, 7⟩ 12 =
      (|(DateConversion.mk 1 7).intersect - 12| / |(DateConversion.mk 1 7).slope|,
       decide (((DateConversion.mk 1 7).intersect - 12) / (DateConversion.mk 1 7).slope < 0)) :=
  ⟨by norm_num, get_date_amended ⟨1, 7⟩ 12 (by norm_num)⟩

/-- C4 counterexample: a tree whose only node carries no raw date; the fit
raises IndexError (empty numpy array column access) instead of returning a
degenerate conversion. -/
theorem from_tree_counterexample :
    from_tree [⟨none, 0⟩] = Except.error PyErr.indexError := rfl

/-- C4 amended: with fewer than two dated nodes the fit never returns a
usable conversion: with zero dated nodes it raises IndexError, and with
exactly one dated node it does not raise but produces the NaN regression
result (modelled as none), not a zero-slope no-op conversion. -/
theorem from_tree_amended (nodes : List DNode)
    (h : (from_tree_dates nodes).length ≤ 1) :
    from_tree nodes = if from_tree_dates nodes = []
      then Except.error PyErr.indexError else Except.ok none := by
  unfold from_tree
  rcases hd : from_tree_dates nodes with - | ⟨p, rest⟩
  · simp [hd]
  · rcases rest with - | ⟨q, rest2⟩
    · have hlr : linregress [p] = none := by
        simp [linregress]
      simp [hd, hlr]
    · rw [hd] at h
      simp at h

/-- C4 witness: the amended statement at a tree with exactly one dated
node. -/
theorem from_tree_amended_witness :
    ((from_tree_dates [⟨some 3, 7⟩]).length ≤ 1) ∧
    from_tree [⟨some 3, 7⟩] = if from_tree_dates [⟨some 3, 7⟩] = []
      then Except.error PyErr.indexError else Except.ok none :=
  ⟨by decide, from_tree_amended [⟨some 3, 7⟩] (by decide)⟩

/-- C7: evaluation at the failing input.  Node 0 is a terminal whose
supplied date lies 100 days in the future (now = 1000, date = 1100); node 1
is an undated terminal.  The loop does continue to node 1 (which is set to
None), but the future-dated node is left with the raw_date attribute unset
rather than None, and the rerooting sort at the end of
_set_dates_to_all_nodes then raises AttributeError, aborting the run. -/
theorem set_dates_future_date_aborts :
    (List.map (set_date_node 1000 [(0, some 1100)])
        [⟨0, true, PyAttr.unset⟩, ⟨1, true, PyAttr.unset⟩] =
      [⟨0, true, PyAttr.unset⟩, ⟨1, true, PyAttr.val none⟩]) ∧
    set_dates_to_all_nodes 1000 [(0, some 1100)]
        [⟨0, true, PyAttr.unset⟩, ⟨1, true, PyAttr.unset⟩] =
      Except.error PyErr.attributeError := by
  constructor <;> rfl

theorem set_final_date_up (dc : DateConversion) (q : Option PNode) (nd : PNode) :
    (set_final_date dc q nd).up = nd.up := by
  cases q <;> rfl

theorem down_pass_spec (dc : DateConversion) :
    ∀ (l acc : List PNode),
      (∀ (k : ℕ) (nd : PNode) (p : ℕ), l[k]? = some nd → nd.up = some p →
        p < acc.length + k) →
      (∀ (j : ℕ) (nd : PNode), acc[j]? = some nd →
        (nd.up = none → nd.dist2root = 0) ∧
        (∀ p : ℕ, nd.up = some p → ∃ pn : PNode, acc[p]? = some pn ∧
          nd.branch_length = nd.abs_t - pn.abs_t ∧
          nd.dist2root = pn.dist2root + nd.branch_length)) →
      ∀ (j : ℕ) (nd : PNode), (down_pass dc acc l)[j]? = some nd →
        (nd.up = none → nd.dist2root = 0) ∧
        (∀ p : ℕ, nd.up = some p → ∃ pn : PNode, (down_pass dc acc l)[p]? = some pn ∧
          nd.branch_length = nd.abs_t - pn.abs_t ∧
          nd.dist2root = pn.dist2root + nd.branch_length) := by
  intro l
  induction l with
  | nil =>
    intro acc hl hacc j nd hj
    simp only [down_pass] at hj ⊢
    exact hacc j nd hj
  | cons nd0 rest ih =>
    intro acc hl hacc j nd hj
    simp only [down_pass] at hj ⊢
    refine ih (acc ++ [set_final_date dc (nd0.up.bind (fun p => acc[p]?)) nd0]) ?_ ?_ j nd hj
    · intro k nd' p hk hp
      have hkl := hl (k + 1) nd' p (by simpa using hk) hp
      rw [List.length_append]
      simpa [Nat.add_assoc, Nat.add_comm 1 k] using hkl
    · intro j' nd' hj'
      rcases Nat.lt_trichotomy j' acc.length with hlt | heq | hgt
      · rw [List.getElem?_append, if_pos hlt] at hj'
        obtain ⟨h1, h2⟩ := hacc j' nd' hj'
        refine ⟨h1, ?_⟩
        intro p hp
        obtain ⟨pn, hpn, hb, hd⟩ := h2 p hp
        have hplen : p < acc.length := (List.getElem?_eq_some.mp hpn).1
        exact ⟨pn, by rw [List.getElem?_append, if_pos hplen]; exact hpn, hb, hd⟩
      · subst heq
        rw [List.getElem?_concat_length] at hj'
        have hnd' : nd' = set_final_date dc (nd0.up.bind (fun p => acc[p]?)) nd0 :=
          (Option.some.inj hj').symm
        subst hnd'
        constructor
        · intro hnone
          rw [set_final_date_up] at hnone
          rw [hnone]
          rfl
        · intro p hp
          rw [set_final_date_up] at hp
          have hplt : p < acc.length := by
            have := hl 0 nd0 p (by simp) hp
            simpa using this
          obtain ⟨pn, hpn⟩ : ∃ pn : PNode, acc[p]? = some pn :=
            ⟨_, List.getElem?_eq_getElem hplt⟩
          refine ⟨pn, ?_, ?_, ?_⟩
          · rw [List.getElem?_append, if_pos hplt]
            exact hpn
          · rw [hp]
            show (set_final_date dc ((some p).bind (fun q => acc[q]?)) nd0).branch_length = _
            rw [Option.some_bind, hpn]
            rfl
          · rw [hp]
            show (set_final_date dc ((some p).bind (fun q => acc[q]?)) nd0).dist2root = _
            rw [Option.some_bind, hpn]
            rfl
      · rw [List.getElem?_append, if_neg (by omega)] at hj'
        rcases hk : j' - acc.length with - | m
        · omega
        · rw [hk] at hj'
          simp at hj'

/-- C8: after the down-pass finalization, the distance-from-root recursion
holds: the root has dist2root 0, and every non-root node has dist2root
equal to the dist2root of its parent plus its branch length, the branch
length being its finalized absolute time minus that of its parent. -/
theorem set_final_date_dist2root (dc : DateConversion) (nodes : List PNode)
    (hwf : ∀ (i : ℕ) (nd : PNode) (p : ℕ), nodes[i]? = some nd → nd.up = some p → p < i) :
    ∀ (i : ℕ) (nd : PNode), (ml_t_root_leaves_tmp dc nodes)[i]? = some nd →
      (nd.up = none → nd.dist2root = 0) ∧
      (∀ p : ℕ, nd.up = some p → ∃ pn : PNode,
        (ml_t_root_leaves_tmp dc nodes)[p]? = some pn ∧
        nd.branch_length = nd.abs_t - pn.abs_t ∧
        nd.dist2root = pn.dist2root + nd.branch_length) := by
  intro i nd hi
  unfold ml_t_root_leaves_tmp at hi ⊢
  refine down_pass_spec dc nodes [] ?_ ?_ i nd hi
  · intro k nd' p hk hp
    simpa using hwf k nd' p hk hp
  · intro j nd' h
    simp at h

theorem down_pass_mem (dc : DateConversion) :
    ∀ (l acc : List PNode) (x : PNode), x ∈ down_pass dc acc l →
      x ∈ acc ∨ ∃ (q : Option PNode) (nd0 : PNode),
        x = set_final_date dc q nd0 ∧ (nd0.up = none → q = none) := by
  intro l
  induction l with
  | nil =>
    intro acc x hx
    simp only [down_pass] at hx
    exact Or.inl hx
  | cons nd0 rest ih =>
    intro acc x hx
    simp only [down_pass] at hx
    rcases ih _ x hx with hmem | hnew
    · rw [List.mem_append] at hmem
      rcases hmem with h | h
      · exact Or.inl h
      · rw [List.mem_singleton] at h
        refine Or.inr ⟨nd0.up.bind (fun p => acc[p]?), nd0, h, ?_⟩
        intro hup
        rw [hup]
        rfl
    · exact Or.inr hnew

/-- C10: any node finalized by the down-pass whose parent reference is
none (the root) gets branch_length 1.0 and dist2root 0.0, whatever the
data. -/
theorem root_branch_length_one (dc : DateConversion) (nodes : List PNode) :
    ∀ (i : ℕ) (nd : PNode), (ml_t_root_leaves_tmp dc nodes)[i]? = some nd →
      nd.up = none → nd.branch_length = 1 ∧ nd.dist2root = 0 := by
  intro i nd hi hup
  have hmem : nd ∈ ml_t_root_leaves_tmp dc nodes := by
    obtain ⟨h, hh⟩ := List.getElem?_eq_some.mp hi
    rw [← hh]
    exact List.getElem_mem h
  unfold ml_t_root_leaves_tmp at hmem
  rcases down_pass_mem dc nodes [] nd hmem with h | ⟨q, nd0, rfl, hq⟩
  · simp at h
  · rw [set_final_date_up] at hup
    rw [hq hup]
    exact ⟨rfl, rfl⟩

/-- C8 witness: a two-node arena (root with optimum 1, child with optimum
0); the finalized child satisfies the recursion relative to the finalized
root. -/
theorem set_final_date_dist2root_witness :
    (ml_t_root_leaves_tmp ⟨1, 0⟩
        [⟨none, ⟨[0, 1], [5, 3]⟩, 0, 0, 0, 0⟩, ⟨some 0, ⟨[0, 2], [1, 4]⟩, 0, 0, 0, 0⟩])[1]? =
      some ⟨some 0, ⟨[0, 2], [1, 4]⟩, 0, -1, -1, 0⟩ ∧
    ((-1 : ℚ) = 0 - 1 ∧ (-1 : ℚ) = 0 + -1) := by
  have heval : ml_t_root_leaves_tmp ⟨1, 0⟩
      [⟨none, ⟨[0, 1], [5, 3]⟩, 0, 0, 0, 0⟩, ⟨some 0, ⟨[0, 2], [1, 4]⟩, 0, 0, 0, 0⟩] =
      [⟨none, ⟨[0, 1], [5, 3]⟩, 1, 1, 0, 1⟩, ⟨some 0, ⟨[0, 2], [1, 4]⟩, 0, -1, -1, 0⟩] := by
    norm_num [ml_t_root_leaves_tmp, down_pass, set_final_date, min_interp, argminPair]
  have hwf : ∀ (i : ℕ) (nd : PNode) (p : ℕ),
      ([⟨none, ⟨[0, 1], [5, 3]⟩, 0, 0, 0, 0⟩,
        ⟨some 0, ⟨[0, 2], [1, 4]⟩, 0, 0, 0, 0⟩] : List PNode)[i]? = some nd →
      nd.up = some p → p < i := by
    intro i nd p hi hp
    match i, hi with
    | 0, hi =>
      simp only [List.getElem?_cons_zero, Option.some.injEq] at hi
      rw [← hi] at hp
      simp at hp
    | 1, hi =>
      simp only [List.getElem?_cons_succ, List.getElem?_cons_zero, Option.some.injEq] at hi
      rw [← hi] at hp
      simp only [Option.some.injEq] at hp
      omega
    | (n + 2), hi => simp at hi
  have h := set_final_date_dist2root ⟨1, 0⟩
      [⟨none, ⟨[0, 1], [5, 3]⟩, 0, 0, 0, 0⟩, ⟨some 0, ⟨[0, 2], [1, 4]⟩, 0, 0, 0, 0⟩] hwf
      1 ⟨some 0, ⟨[0, 2], [1, 4]⟩, 0, -1, -1, 0⟩ (by rw [heval]; rfl)
  obtain ⟨-, h2⟩ := h
  obtain ⟨pn, hpn, hb, hd⟩ := h2 0 rfl
  rw [heval] at hpn
  simp only [List.getElem?_cons_zero, Option.some.injEq] at hpn
  refine ⟨by rw [heval]; rfl, ?_, ?_⟩
  · have hbb := hb
    rw [← hpn] at hbb
    exact hbb
  · have hdd := hd
    rw [← hpn] at hdd
    exact hdd

/-- C10 witness: the root of the same two-node arena is finalized with
branch_length 1 and dist2root 0. -/
theorem root_branch_length_one_witness :
    (ml_t_root_leaves_tmp ⟨1, 0⟩
        [⟨none, ⟨[0, 1], [5, 3]⟩, 0, 0, 0, 0⟩, ⟨some 0, ⟨[0, 2], [1, 4]⟩, 0, 0, 0, 0⟩])[0]? =
      some ⟨none, ⟨[0, 1], [5, 3]⟩, 1, 1, 0, 1⟩ ∧
    ((1 : ℚ) = 1 ∧ (0 : ℚ) = 0) := by
  have heval : ml_t_root_leaves_tmp ⟨1, 0⟩
      [⟨none, ⟨[0, 1], [5, 3]⟩, 0, 0, 0, 0⟩, ⟨some 0, ⟨[0, 2], [1, 4]⟩, 0, 0, 0, 0⟩] =
      [⟨none, ⟨[0, 1], [5, 3]⟩, 1, 1, 0, 1⟩, ⟨some 0, ⟨[0, 2], [1, 4]⟩, 0, -1, -1, 0⟩] := by
    norm_num [ml_t_root_leaves_tmp, down_pass, set_final_date, min_interp, argminPair]
  have h := root_branch_length_one ⟨1, 0⟩
      [⟨none, ⟨[0, 1], [5, 3]⟩, 0, 0, 0, 0⟩, ⟨some 0, ⟨[0, 2], [1, 4]⟩, 0, 0, 0, 0⟩]
      0 ⟨none, ⟨[0, 1], [5, 3]⟩, 1, 1, 0, 1⟩ (by rw [heval]; rfl) rfl
  exact ⟨by rw [heval]; rfl, h.1, h.2⟩

/-- C9: whenever the bounded scalar minimization reports failure, both
_convolve and _parent_neg_log_prob substitute 0.0 for the optimal branch
length and proceed to build the target grid around the unshifted source
optimum; the embedded routines are total, so no abort happens. -/
theorem optimizer_failure_fallback (expF logF : ℚ → ℚ) (maxT : ℚ)
    (src brD nlp : Interp) (r : OptResult) (it : Bool) (g : ℕ)
    (hfail : r.success = false) :
    (if r.success = true then r.x else 0) = 0 ∧
    (convolve expF logF maxT src brD r it g).x =
      make_node_grid maxT (min_interp src) g (1/4) ∧
    parent_neg_log_prob_grid maxT nlp r g =
      make_node_grid maxT (min_interp nlp) g (1/4) := by
  refine ⟨by rw [hfail]; rfl, ?_, ?_⟩
  · simp [convolve, hfail]
  · simp [parent_neg_log_prob_grid, hfail]

/-- C9 witness: the fallback statement at a failed optimizer result. -/
theorem optimizer_failure_fallback_witness :
    ((OptResult.mk false 7).success = false) ∧
    ((if (OptResult.mk false 7).success = true then (OptResult.mk false 7).x else 0) = 0 ∧
     (convolve id id 1 ⟨[0, 1], [0, 0]⟩ ⟨[0, 1], [0, 0]⟩ ⟨false, 7⟩ true 4).x =
       make_node_grid 1 (min_interp ⟨[0, 1], [0, 0]⟩) 4 (1/4) ∧
     parent_neg_log_prob_grid 1 ⟨[0, 1], [0, 0]⟩ ⟨false, 7⟩ 4 =
       make_node_grid 1 (min_interp ⟨[0, 1], [0, 0]⟩) 4 (1/4)) :=
  ⟨rfl, optimizer_failure_fallback id id 1 ⟨[0, 1], [0, 0]⟩ ⟨[0, 1], [0, 0]⟩
    ⟨[0, 1], [0, 0]⟩ ⟨false, 7⟩ true 4 rfl⟩

theorem make_node_grid_mem_le (maxT opt variance : ℚ) (g : ℕ)
    (hs : 0 ≤ maxT * variance) :
    ∀ t ∈ make_node_grid maxT opt g variance,
      t = MIN_T ∨ t = MAX_T ∨ t ≤ opt + maxT * variance := by
  intro t ht
  have key : make_node_grid maxT opt g variance =
      [MIN_T] ++ (linspace 1 (1/100000) (g / 2 - 1)).map
        (fun u => opt - maxT * variance * u ^ 2) ++
        (linspace 0 1 (g / 2)).map (fun u => opt + maxT * variance * u ^ 2) ++
        [MAX_T] := by
    unfold make_node_grid
    simp only []
  rw [key] at ht
  simp only [List.mem_append] at ht
  rcases ht with ((hm | hgr) | hgl) | hmx
  · rw [List.mem_singleton] at hm
    exact Or.inl hm
  · right
    right
    rw [List.mem_map] at hgr
    obtain ⟨u, hu, rfl⟩ := hgr
    have h2 : 0 ≤ maxT * variance * u ^ 2 := mul_nonneg hs (sq_nonneg u)
    linarith
  · right
    right
    rw [List.mem_map] at hgl
    obtain ⟨u, hu, rfl⟩ := hgl
    obtain ⟨h0, h1⟩ := linspace_mem_between hu
    rw [show min (0:ℚ) 1 = 0 by norm_num] at h0
    rw [show max (0:ℚ) 1 = 1 by norm_num] at h1
    have hu2 : u ^ 2 ≤ 1 := by nlinarith
    have := mul_le_mul_of_nonneg_left hu2 hs
    linarith
  · rw [List.mem_singleton] at hmx
    exact Or.inr (Or.inl hmx)

/-- C2: evaluation of _convolve at a failing input for the forward pass.
The source is a near-delta constraint at T = 9, the optimizer locates the
branch-length optimum L = 4, and max_node_abs_t = 10.  The target grid of
the forward (inverse_time = False) convolution equals the backward one and
is the grid built around T - L = 5 (not T + L = 13); every non-sentinel
grid point lies at or below 5 + 10/4 = 15/2, so no grid point is anywhere
near T + L = 13 except the far sentinel MAX_T.  The hypothesis on lg (the
stand-in for np.log(1e10), which is about 23.03) only ensures the argmin
of the constraint values sits at its center point. -/
theorem convolve_forward_centering (expF logF : ℚ → ℚ) (brD : Interp) (lg : ℚ)
    (hlg : -lg < 500) :
    (convolve expF logF 10 (init_constraint_dist lg 9) brD ⟨true, 4⟩ false 100).x =
      make_node_grid 10 5 100 (1/4) ∧
    (convolve expF logF 10 (init_constraint_dist lg 9) brD ⟨true, 4⟩ true 100).x =
      make_node_grid 10 5 100 (1/4) ∧
    ∀ t ∈ (convolve expF logF 10 (init_constraint_dist lg 9) brD ⟨true, 4⟩ false 100).x,
      t ≤ 15/2 ∨ t = MAX_T := by
  have hA : (-lg : ℚ) ≤ 500 := le_of_lt hlg
  have hB : ¬ ((500:ℚ) ≤ -lg) := not_le.mpr hlg
  have hC : ¬ ((1000:ℚ) ≤ -lg) := by linarith
  have h9 : min_interp (init_constraint_dist lg 9) = 9 := by
    norm_num [min_interp, init_constraint_dist, argminPair, MIN_LOG, hA, hB, hC]
  have hgrid : ∀ b : Bool,
      (convolve expF logF 10 (init_constraint_dist lg 9) brD ⟨true, 4⟩ b 100).x =
        make_node_grid 10 5 100 (1/4) := by
    intro b
    norm_num [convolve, h9]
  refine ⟨hgrid false, hgrid true, ?_⟩
  intro t ht
  rw [hgrid false] at ht
  rcases make_node_grid_mem_le 10 5 (1/4) 100 (by norm_num) t ht with h | h | h
  · left
    rw [h]
    norm_num [MIN_T]
  · right
    exact h
  · left
    norm_num at h
    linarith

/-- C2 witness: the centering statement instantiated with lg = 23 (the
rational stand-in for np.log(1e10)). -/
theorem convolve_forward_centering_witness :
    ((-(23:ℚ)) < 500) ∧
    ((convolve id id 10 (init_constraint_dist 23 9) ⟨[0, 1], [0, 0]⟩ ⟨true, 4⟩ false 100).x =
       make_node_grid 10 5 100 (1/4) ∧
     (convolve id id 10 (init_constraint_dist 23 9) ⟨[0, 1], [0, 0]⟩ ⟨true, 4⟩ true 100).x =
       make_node_grid 10 5 100 (1/4) ∧
     ∀ t ∈ (convolve id id 10 (init_constraint_dist 23 9) ⟨[0, 1], [0, 0]⟩ ⟨true, 4⟩ false 100).x,
       t ≤ 15/2 ∨ t = MAX_T) :=
  ⟨by norm_num, convolve_forward_centering id id ⟨[0, 1], [0, 0]⟩ 23 (by norm_num)⟩

theorem foldl_min_le_init (t : List ℚ) : ∀ acc : ℚ, t.foldl min acc ≤ acc := by
  induction t with
  | nil => intro acc; simp
  | cons b t ih =>
    intro acc
    calc (b :: t).foldl min acc = t.foldl min (min acc b) := rfl
    _ ≤ min acc b := ih _
    _ ≤ acc := min_le_left _ _

theorem foldl_min_le_mem (t : List ℚ) : ∀ (acc x : ℚ), x ∈ t → t.foldl min acc ≤ x := by
  induction t with
  | nil =>
    intro acc x h
    simp at h
  | cons b t ih =>
    intro acc x h
    rw [List.mem_cons] at h
    rcases h with rfl | h
    · calc (x :: t).foldl min acc = t.foldl min (min acc x) := rfl
      _ ≤ min acc x := foldl_min_le_init t _
      _ ≤ x := min_le_right _ _
    · exact ih _ x h

theorem le_foldl_min (t : List ℚ) : ∀ (acc c : ℚ), c ≤ acc → (∀ x ∈ t, c ≤ x) →
    c ≤ t.foldl min acc := by
  induction t with
  | nil =>
    intro acc c h _
    simpa using h
  | cons b t ih =>
    intro acc c h hall
    refine ih _ c (le_min h (hall b (by simp))) ?_
    intro x hx
    exact hall x (by simp [hx])

theorem listMinQ_le (l : List ℚ) (x : ℚ) (h : x ∈ l) : listMinQ l ≤ x := by
  cases l with
  | nil => simp at h
  | cons v vs =>
    rw [List.mem_cons] at h
    rcases h with rfl | h
    · exact foldl_min_le_init vs x
    · exact foldl_min_le_mem vs v x h

theorem le_listMinQ (l : List ℚ) (c : ℚ) (hne : l ≠ []) (h : ∀ x ∈ l, c ≤ x) :
    c ≤ listMinQ l := by
  cases l with
  | nil => exact absurd rfl hne
  | cons v vs => exact le_foldl_min vs v c (h v (by simp)) (fun x hx => h x (by simp [hx]))

/-- C1 amended: the returned prefactor always equals the sum of the input
prefactors plus the subtracted minimum of the pointwise sum; and the
minimum of the returned values is exactly 0 provided the pointwise sum
attains its minimum at a grid position other than the two outermost on
each side (which the sentinel overwrite replaces by 1000 and 500). -/
theorem multiply_dists_amended (maxT : ℚ) (interps : List Interp)
    (prefactors : List ℚ) (g i : ℕ)
    (hi2 : 2 ≤ i)
    (hin : i + 2 < (combined_grid maxT interps g).length)
    (hmin : (sum_vals interps (combined_grid maxT interps g))[i]? =
      some (listMinQ (sum_vals interps (combined_grid maxT interps g)))) :
    (multiply_dists maxT interps prefactors g).2 =
      prefactors.sum + listMinQ (sum_vals interps (combined_grid maxT interps g)) ∧
    listMinQ (multiply_dists maxT interps prefactors g).1.y = 0 := by
  refine ⟨rfl, ?_⟩
  have hy : (multiply_dists maxT interps prefactors g).1.y =
      (((((sum_vals interps (combined_grid maxT interps g)).map
            (fun v => v - listMinQ (sum_vals interps (combined_grid maxT interps g)))).set
          0 (-1 * MIN_LOG)).set
        (((sum_vals interps (combined_grid maxT interps g)).map
            (fun v => v - listMinQ (sum_vals interps
              (combined_grid maxT interps g)))).length - 1) (-1 * MIN_LOG)).set
        1 (-1 * MIN_LOG / 2)).set
        (((sum_vals interps (combined_grid maxT interps g)).map
            (fun v => v - listMinQ (sum_vals interps
              (combined_grid maxT interps g)))).length - 2) (-1 * MIN_LOG / 2) := rfl
  rw [hy]
  set S := sum_vals interps (combined_grid maxT interps g) with hS
  set P := listMinQ S with hP
  set M := S.map (fun v => v - P) with hM
  have hMlen : M.length = S.length := List.length_map _ _
  have hSlen : S.length = (combined_grid maxT interps g).length := List.length_map _ _
  have hiS : i < S.length := by omega
  have hA : (0:ℚ) ≤ -1 * MIN_LOG := by norm_num [MIN_LOG]
  have hB : (0:ℚ) ≤ -1 * MIN_LOG / 2 := by norm_num [MIN_LOG]
  have hel : ∀ x ∈ (((M.set 0 (-1 * MIN_LOG)).set (M.length - 1) (-1 * MIN_LOG)).set
      1 (-1 * MIN_LOG / 2)).set (M.length - 2) (-1 * MIN_LOG / 2), 0 ≤ x := by
    intro x hx
    rcases List.mem_or_eq_of_mem_set hx with hx | rfl
    · rcases List.mem_or_eq_of_mem_set hx with hx | rfl
      · rcases List.mem_or_eq_of_mem_set hx with hx | rfl
        · rcases List.mem_or_eq_of_mem_set hx with hx | rfl
          · rw [hM, List.mem_map] at hx
            obtain ⟨v, hv, rfl⟩ := hx
            have := listMinQ_le S v hv
            rw [← hP] at this
            linarith
          · exact hA
        · exact hA
      · exact hB
    · exact hB
  have hgetM : M[i]? = some 0 := by
    rw [hM, List.getElem?_map, hmin]
    simp
  have hget : ((((M.set 0 (-1 * MIN_LOG)).set (M.length - 1) (-1 * MIN_LOG)).set
      1 (-1 * MIN_LOG / 2)).set (M.length - 2) (-1 * MIN_LOG / 2))[i]? = some 0 := by
    rw [List.getElem?_set_ne (by omega), List.getElem?_set_ne (by omega),
      List.getElem?_set_ne (by omega), List.getElem?_set_ne (by omega)]
    exact hgetM
  have hmem : (0:ℚ) ∈ (((M.set 0 (-1 * MIN_LOG)).set (M.length - 1) (-1 * MIN_LOG)).set
      1 (-1 * MIN_LOG / 2)).set (M.length - 2) (-1 * MIN_LOG / 2) := by
    obtain ⟨hlt, hval⟩ := List.getElem?_eq_some.mp hget
    rw [← hval]
    exact List.getElem_mem hlt
  have hne : (((M.set 0 (-1 * MIN_LOG)).set (M.length - 1) (-1 * MIN_LOG)).set
      1 (-1 * MIN_LOG / 2)).set (M.length - 2) (-1 * MIN_LOG / 2) ≠ [] := by
    intro hcon
    have hlen := congrArg List.length hcon
    simp only [List.length_set, List.length_nil] at hlen
    omega
  exact le_antisymm (listMinQ_le _ 0 hmem) (le_listMinQ _ 0 hne hel)

/-- C1 counterexample: a single input distribution (so the combined grid is
its own grid) whose pointwise sum attains its minimum at grid position 0;
the sentinel overwrite then replaces that minimum by 1000, and the minimum
of the returned values is 2, not 0. -/
theorem multiply_dists_min_not_zero :
    listMinQ (multiply_dists 1 [⟨[-100000, 0, 1, 2, 100000], [0, 1, 2, 3, 4]⟩]
      [0] 100).1.y ≠ 0 := by
  have hgrid : combined_grid 1 [⟨[-100000, 0, 1, 2, 100000], [0, 1, 2, 3, 4]⟩] 100 =
      [-100000, 0, 1, 2, 100000] := by
    norm_num [combined_grid, listMinN, np_unique, List.insertionSort, List.orderedInsert,
      List.dedup, List.pwFilter]
  norm_num [multiply_dists, hgrid, sum_vals, interp_eval, interp_pairs, listMinQ,
    min_def, MIN_LOG, List.set]

/-- C1 witness: a single near-delta input whose sum attains its minimum at
the interior position 2; the returned prefactor is 7 + (-23) and the
returned minimum is exactly 0. -/
theorem multiply_dists_amended_witness :
    ((2 ≤ 2) ∧
     2 + 2 < (combined_grid 1 [⟨[-100000, -1, 0, 1, 100000],
       [1000, 500, -23, 500, 1000]⟩] 100).length ∧
     (sum_vals [⟨[-100000, -1, 0, 1, 100000], [1000, 500, -23, 500, 1000]⟩]
        (combined_grid 1 [⟨[-100000, -1, 0, 1, 100000], [1000, 500, -23, 500, 1000]⟩] 100))[2]? =
       some (listMinQ (sum_vals [⟨[-100000, -1, 0, 1, 100000], [1000, 500, -23, 500, 1000]⟩]
        (combined_grid 1 [⟨[-100000, -1, 0, 1, 100000], [1000, 500, -23, 500, 1000]⟩] 100)))) ∧
    ((multiply_dists 1 [⟨[-100000, -1, 0, 1, 100000], [1000, 500, -23, 500, 1000]⟩] [7] 100).2 =
       List.sum [(7:ℚ)] + listMinQ (sum_vals [⟨[-100000, -1, 0, 1, 100000],
         [1000, 500, -23, 500, 1000]⟩]
        (combined_grid 1 [⟨[-100000, -1, 0, 1, 100000], [1000, 500, -23, 500, 1000]⟩] 100)) ∧
     listMinQ (multiply_dists 1 [⟨[-100000, -1, 0, 1, 100000],
       [1000, 500, -23, 500, 1000]⟩] [7] 100).1.y = 0) := by
  have hgrid : combined_grid 1 [⟨[-100000, -1, 0, 1, 100000],
      [1000, 500, -23, 500, 1000]⟩] 100 = [-100000, -1, 0, 1, 100000] := by
    norm_num [combined_grid, listMinN, np_unique, List.insertionSort, List.orderedInsert,
      List.dedup, List.pwFilter]
  have hsum : sum_vals [⟨[-100000, -1, 0, 1, 100000], [1000, 500, -23, 500, 1000]⟩]
      (combined_grid 1 [⟨[-100000, -1, 0, 1, 100000], [1000, 500, -23, 500, 1000]⟩] 100) =
      [1000, 500, -23, 500, 1000] := by
    rw [hgrid]
    norm_num [sum_vals, interp_eval, interp_pairs]
  have hlen : 2 + 2 < (combined_grid 1 [⟨[-100000, -1, 0, 1, 100000],
      [1000, 500, -23, 500, 1000]⟩] 100).length := by
    rw [hgrid]
    norm_num
  have hmin : (sum_vals [⟨[-100000, -1, 0, 1, 100000], [1000, 500, -23, 500, 1000]⟩]
      (combined_grid 1 [⟨[-100000, -1, 0, 1, 100000], [1000, 500, -23, 500, 1000]⟩] 100))[2]? =
      some (listMinQ (sum_vals [⟨[-100000, -1, 0, 1, 100000], [1000, 500, -23, 500, 1000]⟩]
      (combined_grid 1 [⟨[-100000, -1, 0, 1, 100000], [1000, 500, -23, 500, 1000]⟩] 100))) := by
    rw [hsum]
    norm_num [listMinQ, min_def]
  exact ⟨⟨le_refl 2, hlen, hmin⟩,
    multiply_dists_amended 1 [⟨[-100000, -1, 0, 1, 100000], [1000, 500, -23, 500, 1000]⟩]
      [7] 100 2 (le_refl 2) hlen hmin⟩

/-- C6 counterexample: for a node with branch length 1/2 (at least 1e-5,
so the asymmetric branch), average branch length 1/10, max depth 1 and the
n = 25 used by _ml_t_init, the grid of the branch-length distribution is
not strictly increasing: the left grid ends at the branch length 1/2 and
the right grid starts at the same point 1/2. -/
theorem branch_len_grid_not_strictly_increasing :
    ¬ ((make_branch_len_interpolator (fun _ => 0) 1 (1/10) (1/2) 25).x.Pairwise (· < ·)) := by
  intro h
  rw [show (make_branch_len_interpolator (fun _ => 0) 1 (1/10) (1/2) 25).x =
      branch_len_grid 1 (1/10) (1/2) 25 from rfl] at h
  unfold branch_len_grid at h
  rw [if_neg (by norm_num)] at h
  simp only [] at h
  rw [List.pairwise_append] at h
  obtain ⟨h1, -, -⟩ := h
  rw [List.pairwise_append] at h1
  obtain ⟨-, -, hcross⟩ := h1
  have ht0 : (0:ℚ) ∈ linspace 1 0 (25 / 2) := by
    rw [linspace, List.mem_map]
    refine ⟨11, ?_, by norm_num⟩
    rw [List.mem_range]
    norm_num
  have ht0r : (0:ℚ) ∈ linspace 0 1 (25 / 2) := by
    rw [linspace, List.mem_map]
    refine ⟨0, ?_, by norm_num⟩
    rw [List.mem_range]
    norm_num
  have ha : (1/2 : ℚ) ∈ (linspace 1 0 (25 / 2)).map (fun t => (1/2 : ℚ) * (1 - t ^ 2)) := by
    rw [List.mem_map]
    exact ⟨0, ht0, by norm_num⟩
  have hb : (1/2 : ℚ) ∈ (linspace 0 1 (25 / 2)).map
      (fun t => (1/2 : ℚ) + 3 * max (1/10) (1/2) * t ^ 2) := by
    rw [List.mem_map]
    exact ⟨0, ht0r, by norm_num⟩
  exact absurd (hcross _ (List.mem_append_right _ ha) _ hb) (lt_irrefl _)

theorem branch_len_vals_sentinels (gtr : ℚ → ℚ) (grid : List ℚ) :
    (branch_len_vals gtr grid)[0]? = some 1000 ∧
    (branch_len_vals gtr grid)[1]? = some 500 ∧
    (branch_len_vals gtr grid)[(branch_len_vals gtr grid).length - 2]? = some 500 ∧
    (branch_len_vals gtr grid)[(branch_len_vals gtr grid).length - 1]? = some 1000 := by
  unfold branch_len_vals
  simp only []
  set mid := ((grid.drop 2).dropLast).map gtr with hmid
  set L := ([(0:ℚ), 0] ++ mid ++ [0]) with hLdef
  have hLlen : L.length = mid.length + 3 := by
    rw [hLdef]
    simp [List.length_append]
  refine ⟨?_, ?_, ?_, ?_⟩
  · rw [List.getElem?_map]
    rw [List.getElem?_set_ne (by omega), List.getElem?_set_ne (by omega),
      List.getElem?_set_ne (by omega), List.getElem?_set_self (by omega)]
    norm_num [MIN_LOG]
  · rw [List.getElem?_map]
    by_cases h31 : L.length - 2 = 1
    · rw [h31, List.getElem?_set_self (by simp; omega)]
      norm_num [MIN_LOG]
    · rw [List.getElem?_set_ne h31, List.getElem?_set_self (by simp; omega)]
      norm_num [MIN_LOG]
  · simp only [List.length_map, List.length_set]
    rw [List.getElem?_map, List.getElem?_set_self (by simp; omega)]
    norm_num [MIN_LOG]
  · simp only [List.length_map, List.length_set]
    rw [List.getElem?_map]
    rw [List.getElem?_set_ne (by omega), List.getElem?_set_ne (by omega),
      List.getElem?_set_self (by simp; omega)]
    norm_num [MIN_LOG]

/-- C6 amended: for a branch of length at least 1e-5 the branch-length
distribution grid is non-decreasing (not strictly increasing: the point at
the branch length is duplicated where the two half-grids meet), and for a
constrained node at a positive absolute time below MAX_T/(1 + 1e-10) the
initial constraint grid is strictly increasing; in both distributions the
two outermost points on each side carry the sentinel neg-log values, 1000
outermost and 500 next to it, the outermost being the larger. -/
theorem branch_len_interpolator_amended (gtr : ℚ → ℚ) (lg maxT abl bl T : ℚ) (n : ℕ)
    (hbl : ¬ bl < 1/100000)
    (hup : bl + 3 * max abl bl < MAX_T)
    (hT : 0 < T) (hTup : T * (1 + 1/10^10) < MAX_T) :
    ((make_branch_len_interpolator gtr maxT abl bl n).x.Pairwise (· ≤ ·) ∧
     (make_branch_len_interpolator gtr maxT abl bl n).y[0]? = some 1000 ∧
     (make_branch_len_interpolator gtr maxT abl bl n).y[1]? = some 500 ∧
     (make_branch_len_interpolator gtr maxT abl bl
       n).y[(make_branch_len_interpolator gtr maxT abl bl n).y.length - 2]? = some 500 ∧
     (make_branch_len_interpolator gtr maxT abl bl
       n).y[(make_branch_len_interpolator gtr maxT abl bl n).y.length - 1]? = some 1000) ∧
    ((init_constraint_dist lg T).x.Pairwise (· < ·) ∧
     (init_constraint_dist lg T).y[0]? = some 1000 ∧
     (init_constraint_dist lg T).y[1]? = some 500 ∧
     (init_constraint_dist lg T).y[3]? = some 500 ∧
     (init_constraint_dist lg T).y[4]? = some 1000 ∧
     (500:ℚ) < 1000) := by
  have hbl0 : (0:ℚ) ≤ bl := by
    have := not_lt.mp hbl
    linarith
  have hsig : (0:ℚ) ≤ max abl bl := le_trans hbl0 (le_max_right _ _)
  have hgrid : (make_branch_len_interpolator gtr maxT abl bl n).x =
      [MIN_T, -(1/10^30)] ++ (linspace 1 0 (n / 2)).map (fun t => bl * (1 - t ^ 2)) ++
        (linspace 0 1 (n / 2)).map (fun t => bl + 3 * max abl bl * t ^ 2) ++ [MAX_T] := by
    rw [show (make_branch_len_interpolator gtr maxT abl bl n).x =
        branch_len_grid maxT abl bl n from rfl]
    unfold branch_len_grid
    rw [if_neg hbl]
  have hleft : ∀ x ∈ (linspace 1 0 (n / 2)).map (fun t => bl * (1 - t ^ 2)),
      0 ≤ x ∧ x ≤ bl := by
    intro x hx
    rw [List.mem_map] at hx
    obtain ⟨t, ht, rfl⟩ := hx
    obtain ⟨h0, h1⟩ := linspace_mem_between ht
    rw [show min (1:ℚ) 0 = 0 by norm_num] at h0
    rw [show max (1:ℚ) 0 = 1 by norm_num] at h1
    have ht2 : t ^ 2 ≤ 1 := by nlinarith
    have ht0 : 0 ≤ t ^ 2 := sq_nonneg t
    constructor
    · exact mul_nonneg hbl0 (by linarith)
    · nlinarith
  have hright : ∀ x ∈ (linspace 0 1 (n / 2)).map (fun t => bl + 3 * max abl bl * t ^ 2),
      bl ≤ x ∧ x ≤ bl + 3 * max abl bl := by
    intro x hx
    rw [List.mem_map] at hx
    obtain ⟨t, ht, rfl⟩ := hx
    obtain ⟨h0, h1⟩ := linspace_mem_between ht
    rw [show min (0:ℚ) 1 = 0 by norm_num] at h0
    rw [show max (0:ℚ) 1 = 1 by norm_num] at h1
    have ht2 : t ^ 2 ≤ 1 := by nlinarith
    have ht0 : 0 ≤ t ^ 2 := sq_nonneg t
    constructor
    · nlinarith
    · nlinarith
  refine ⟨⟨?_, ?_, ?_, ?_, ?_⟩, ?_, ?_, ?_, ?_, ?_, by norm_num⟩
  · rw [hgrid]
    rw [List.pairwise_append]
    refine ⟨?_, List.pairwise_singleton _ _, ?_⟩
    · rw [List.pairwise_append]
      refine ⟨?_, pairwise_le_grid_right bl (max abl bl) hsig _, ?_⟩
      · rw [List.pairwise_append]
        refine ⟨?_, pairwise_le_grid_left bl hbl0 _, ?_⟩
        · refine List.pairwise_cons.mpr ⟨?_, List.pairwise_singleton _ _⟩
          intro b hb
          rw [List.mem_singleton] at hb
          subst hb
          norm_num [MIN_T]
        · intro u hu v hv
          obtain ⟨h1, -⟩ := hleft v hv
          rw [List.mem_cons] at hu
          rcases hu with rfl | hu
          · norm_num [MIN_T]
            linarith
          · rw [List.mem_singleton] at hu
            subst hu
            nlinarith
      · intro u hu v hv
        obtain ⟨h1, -⟩ := hright v hv
        rw [List.mem_append] at hu
        rcases hu with hu | hu
        · rw [List.mem_cons] at hu
          rcases hu with rfl | hu
          · norm_num [MIN_T]
            linarith
          · rw [List.mem_singleton] at hu
            subst hu
            nlinarith
        · obtain ⟨-, h2⟩ := hleft u hu
          linarith
    · intro u hu v hv
      rw [List.mem_singleton] at hv
      subst hv
      have h3 : (0:ℚ) ≤ 3 * max abl bl := by linarith
      rw [List.mem_append] at hu
      rcases hu with hu | hu
      · rw [List.mem_append] at hu
        rcases hu with hu | hu
        · rw [List.mem_cons] at hu
          rcases hu with rfl | hu
          · norm_num [MIN_T, MAX_T]
          · rw [List.mem_singleton] at hu
            subst hu
            norm_num [MAX_T]
        · obtain ⟨-, h2⟩ := hleft u hu
          rw [MAX_T] at hup ⊢
          linarith
      · obtain ⟨-, h2⟩ := hright u hu
        rw [MAX_T] at hup ⊢
        linarith
  · exact (branch_len_vals_sentinels gtr (branch_len_grid maxT abl bl n)).1
  · exact (branch_len_vals_sentinels gtr (branch_len_grid maxT abl bl n)).2.1
  · exact (branch_len_vals_sentinels gtr (branch_len_grid maxT abl bl n)).2.2.1
  · exact (branch_len_vals_sentinels gtr (branch_len_grid maxT abl bl n)).2.2.2
  · have hc : List.Chain' (· < ·)
        [MIN_T, T * (1 - 1/10^10), T * 1, T * (1 + 1/10^10), MAX_T] := by
      simp only [List.chain'_cons, List.chain'_singleton]
      refine ⟨?_, ?_, ?_, ⟨?_, trivial⟩⟩
      · rw [MIN_T]
        nlinarith
      · nlinarith
      · nlinarith
      · exact hTup
    exact List.chain'_iff_pairwise.mp hc
  · norm_num [init_constraint_dist, MIN_LOG]
  · norm_num [init_constraint_dist, MIN_LOG]
  · norm_num [init_constraint_dist, MIN_LOG]
  · norm_num [init_constraint_dist, MIN_LOG]

/-- C6 witness: the amended statement instantiated at branch length 1/2,
average branch length 1/10, max depth 1, n = 25, constraint time 9 and
lg = 23. -/
theorem branch_len_interpolator_amended_witness :
    ((¬ (1/2 : ℚ) < 1/100000) ∧ (1/2 : ℚ) + 3 * max (1/10) (1/2) < MAX_T ∧
     (0:ℚ) < 9 ∧ (9:ℚ) * (1 + 1/10^10) < MAX_T) ∧
    (((make_branch_len_interpolator (fun _ => 0) 1 (1/10) (1/2) 25).x.Pairwise (· ≤ ·) ∧
      (make_branch_len_interpolator (fun _ => 0) 1 (1/10) (1/2) 25).y[0]? = some 1000 ∧
      (make_branch_len_interpolator (fun _ => 0) 1 (1/10) (1/2) 25).y[1]? = some 500 ∧
      (make_branch_len_interpolator (fun _ => 0) 1 (1/10) (1/2)
        25).y[(make_branch_len_interpolator (fun _ => 0) 1 (1/10) (1/2)
          25).y.length - 2]? = some 500 ∧
      (make_branch_len_interpolator (fun _ => 0) 1 (1/10) (1/2)
        25).y[(make_branch_len_interpolator (fun _ => 0) 1 (1/10) (1/2)
          25).y.length - 1]? = some 1000) ∧
     ((init_constraint_dist 23 9).x.Pairwise (· < ·) ∧
      (init_constraint_dist 23 9).y[0]? = some 1000 ∧
      (init_constraint_dist 23 9).y[1]? = some 500 ∧
      (init_constraint_dist 23 9).y[3]? = some 500 ∧
      (init_constraint_dist 23 9).y[4]? = some 1000 ∧
      (500:ℚ) < 1000)) :=
  ⟨⟨by norm_num, by norm_num [MAX_T], by norm_num, by norm_num [MAX_T]⟩,
   branch_len_interpolator_amended (fun _ => 0) 23 1 (1/10) (1/2) 9 25
     (by norm_num) (by norm_num [MAX_T]) (by norm_num) (by norm_num [MAX_T])⟩
